import Mathlib

/-!
Shallow embedding of the ErrorOS process-management core
(src/os/src/process/pid.rs, pcb.rs, context.rs, scheduler.rs).

Modelling conventions:
* Process ids are `Nat` (the Rust `ProcessId` is a transparent wrapper
  around `usize`; the target is riscv64, so `usize` is 64 bits wide).
* The `BTreeMap<ProcessId, ProcessHandle>` process table is an association
  list with BTreeMap insert/remove/get semantics.  The shared
  `Arc<Mutex<ProcessControlBlock>>` handles are modelled by updating the
  table entry in place, which is observationally identical because the
  table is the only long-term owner of each PCB.
* `Scheduler::schedule` contains `self.get_process(current_pid).unwrap()`,
  which panics when the current id is absent from the table; operations
  that can reach this panic return `Option Scheduler`, with `none`
  standing for the panic.
* The context-switch assembly (`switch_context` in switch.S, and the
  inline jump in `Scheduler::start_process`) transfers control but reads
  and writes no scheduler field, so it is the identity on the state
  modelled here.
-/

/-- Lifecycle state of a process (pcb.rs, `ProcessState`). -/
inductive ProcessState where
  | Ready
  | Running
  | Blocked
  | Zombie
deriving DecidableEq

/-- Process control block (pcb.rs, `ProcessControlBlock`), restricted to
the fields that the operations modelled here read or write: `pid`,
`state`, `time_slice` and `exit_code`.  The remaining fields
(`parent_pid`, `name`, `context`, `address_space`, heap/stack bounds,
`priority`, `children`) are never read or written by the scheduler
operations under verification and are carried along unchanged by all of
them. -/
structure ProcessControlBlock where
  pid : Nat
  state : ProcessState
  time_slice : Nat
  exit_code : Option Int
deriving DecidableEq

/-- `ProcessControlBlock::new` (pcb.rs): a fresh PCB starts in state
`Ready` with the default time slice of 5 and no exit code.  The pid is
produced by `ProcessId::new`; here the caller passes it in. -/
def ProcessControlBlock.new (pid : Nat) : ProcessControlBlock :=
  { pid := pid, state := ProcessState.Ready, time_slice := 5, exit_code := none }

/-- `ProcessControlBlock::set_exit_code` (pcb.rs): record the code and
move to `Zombie`, unconditionally. -/
def ProcessControlBlock.set_exit_code (p : ProcessControlBlock) (code : Int) :
    ProcessControlBlock :=
  { p with exit_code := some code, state := ProcessState.Zombie }

/-- `ProcessControlBlock::reset_time_slice` (pcb.rs): set the remaining
time slice back to 5. -/
def ProcessControlBlock.reset_time_slice (p : ProcessControlBlock) : ProcessControlBlock :=
  { p with time_slice := 5 }

/-- `ProcessControlBlock::tick` (pcb.rs): decrement the remaining time
slice if it is positive, then report whether it is now zero.  The Rust
method mutates the PCB and returns the `bool`; here the updated PCB is
returned alongside the `bool`. -/
def ProcessControlBlock.tick (p : ProcessControlBlock) : ProcessControlBlock × Bool :=
  let p' := if 0 < p.time_slice then { p with time_slice := p.time_slice - 1 } else p
  (p', p'.time_slice == 0)

/-- The list of booleans returned by `n` successive `tick()` calls on a
PCB. -/
def tickResults : ProcessControlBlock → Nat → List Bool
  | _, 0 => []
  | p, n + 1 => (p.tick).2 :: tickResults (p.tick).1 n

/-- Modulus of the 64-bit `usize` of the riscv64 target. -/
def USIZE_MOD : Nat := 2 ^ 64

/-- `ProcessId::new` (pid.rs): `NEXT_PID.fetch_add(1, Ordering::Relaxed)`
on an `AtomicUsize` — returns the old counter value and stores the
wrapping successor.  The counter state is threaded explicitly. -/
def ProcessId.new (next : Nat) : Nat × Nat :=
  (next, (next + 1) % USIZE_MOD)

/-- Initial value of the `NEXT_PID` counter (pid.rs line 28). -/
def NEXT_PID_INIT : Nat := 1

/-- The ids returned by `n` successive `ProcessId::new` calls starting
from counter value `c`. -/
def allocIds : Nat → Nat → List Nat
  | 0, _ => []
  | n + 1, c => (ProcessId.new c).1 :: allocIds n (ProcessId.new c).2

/-- `sstatus_ext::SPP_BIT` (context.rs): privilege bit of sstatus. -/
def SPP_BIT : Nat := 8

/-- `sstatus_ext::SPIE_BIT` (context.rs): interrupt-enable-on-return
bit of sstatus. -/
def SPIE_BIT : Nat := 5

/-- `sstatus_ext::SIE_BIT` (context.rs): current interrupt-enable bit. -/
def SIE_BIT : Nat := 1

/-- `sstatus_ext::set_user_mode` (context.rs):
`*sstatus &= !(1 << SPP_BIT)`.  The `usize` bitwise NOT of `1 << 8` is
XOR with the all-ones 64-bit word. -/
def set_user_mode (sstatus : Nat) : Nat :=
  sstatus &&& ((USIZE_MOD - 1) ^^^ (1 <<< SPP_BIT))

/-- `sstatus_ext::set_supervisor_mode` (context.rs):
`*sstatus |= 1 << SPP_BIT`. -/
def set_supervisor_mode (sstatus : Nat) : Nat :=
  sstatus ||| (1 <<< SPP_BIT)

/-- `sstatus_ext::enable_interrupt_on_return` (context.rs):
`*sstatus |= 1 << SPIE_BIT`. -/
def enable_interrupt_on_return (sstatus : Nat) : Nat :=
  sstatus ||| (1 <<< SPIE_BIT)

/-- Execution context (context.rs, `ProcessContext`): every saved
general-purpose register plus the sepc/sstatus/satp CSRs, in source
order. -/
structure ProcessContext where
  ra : Nat
  sp : Nat
  gp : Nat
  tp : Nat
  t0 : Nat
  t1 : Nat
  t2 : Nat
  t3 : Nat
  t4 : Nat
  t5 : Nat
  t6 : Nat
  s0 : Nat
  s1 : Nat
  s2 : Nat
  s3 : Nat
  s4 : Nat
  s5 : Nat
  s6 : Nat
  s7 : Nat
  s8 : Nat
  s9 : Nat
  s10 : Nat
  s11 : Nat
  a0 : Nat
  a1 : Nat
  a2 : Nat
  a3 : Nat
  a4 : Nat
  a5 : Nat
  a6 : Nat
  a7 : Nat
  sepc : Nat
  sstatus : Nat
  satp : Nat
deriving DecidableEq

/-- `ProcessContext::new` (context.rs): all registers zero. -/
def ProcessContext.new : ProcessContext :=
  { ra := 0, sp := 0, gp := 0, tp := 0,
    t0 := 0, t1 := 0, t2 := 0, t3 := 0, t4 := 0, t5 := 0, t6 := 0,
    s0 := 0, s1 := 0, s2 := 0, s3 := 0, s4 := 0, s5 := 0,
    s6 := 0, s7 := 0, s8 := 0, s9 := 0, s10 := 0, s11 := 0,
    a0 := 0, a1 := 0, a2 := 0, a3 := 0, a4 := 0, a5 := 0, a6 := 0, a7 := 0,
    sepc := 0, sstatus := 0, satp := 0 }

/-- `ProcessContext::new_user_context` (context.rs): start from the
all-zero context, set sepc/sp/satp, read the live sstatus CSR
(`csrr {}, sstatus` — its value `hw_sstatus` is an input here), clear the
SPP bit and set the SPIE bit of that value, and store the result. -/
def ProcessContext.new_user_context (entry_point user_stack_top satp_value hw_sstatus : Nat) :
    ProcessContext :=
  { ProcessContext.new with
      sepc := entry_point,
      sp := user_stack_top,
      satp := satp_value,
      sstatus := enable_interrupt_on_return (set_user_mode hw_sstatus) }

/-- `BTreeMap::get`: first entry with the given key. -/
def lookupProc : List (Nat × ProcessControlBlock) → Nat → Option ProcessControlBlock
  | [], _ => none
  | kv :: rest, q => if q = kv.1 then some kv.2 else lookupProc rest q

/-- `BTreeMap::insert`: keep the list sorted by key, replacing an
existing binding of the same key. -/
def insertProc (pid : Nat) (p : ProcessControlBlock) :
    List (Nat × ProcessControlBlock) → List (Nat × ProcessControlBlock)
  | [] => [(pid, p)]
  | kv :: rest =>
    if pid < kv.1 then (pid, p) :: kv :: rest
    else if pid = kv.1 then (pid, p) :: rest
    else kv :: insertProc pid p rest

/-- Mutation of the PCB behind the shared handle at key `pid`
(`process.lock()` followed by a setter): apply `f` to the entry with that
key. -/
def updateProc (pid : Nat) (f : ProcessControlBlock → ProcessControlBlock)
    (l : List (Nat × ProcessControlBlock)) : List (Nat × ProcessControlBlock) :=
  l.map (fun kv => if kv.1 = pid then (kv.1, f kv.2) else kv)

/-- `BTreeMap::remove`: drop the binding of the given key. -/
def eraseProc (pid : Nat) (l : List (Nat × ProcessControlBlock)) :
    List (Nat × ProcessControlBlock) :=
  l.filter (fun kv => kv.1 ≠ pid)

/-- Scheduler state (scheduler.rs, `Scheduler`): process table, FIFO
ready queue of pids, and the optional current pid. -/
structure Scheduler where
  processes : List (Nat × ProcessControlBlock)
  ready_queue : List Nat
  current : Option Nat
deriving DecidableEq

/-- `Scheduler::new` (scheduler.rs): empty table, empty queue, no
current process. -/
def Scheduler.new : Scheduler :=
  { processes := [], ready_queue := [], current := none }

/-- `Scheduler::add_process` (scheduler.rs): insert into the table and,
if the PCB's state is `Ready`, push its pid on the ready-queue tail. -/
def Scheduler.add_process (s : Scheduler) (p : ProcessControlBlock) : Scheduler :=
  let s1 := { s with processes := insertProc p.pid p s.processes }
  if p.state = ProcessState.Ready then
    { s1 with ready_queue := s1.ready_queue ++ [p.pid] }
  else s1

/-- `Scheduler::remove_process` (scheduler.rs): retain all other pids in
the ready queue, remove the table entry, and clear `current` if it
matched. -/
def Scheduler.remove_process (s : Scheduler) (pid : Nat) : Scheduler :=
  { processes := eraseProc pid s.processes,
    ready_queue := s.ready_queue.filter (fun q => q ≠ pid),
    current := if s.current = some pid then none else s.current }

/-- `Scheduler::enqueue` (scheduler.rs): re-check the state through the
table and push the pid on the ready-queue tail only if it is `Ready`. -/
def Scheduler.enqueue (s : Scheduler) (pid : Nat) : Scheduler :=
  match lookupProc s.processes pid with
  | some p =>
    if p.state = ProcessState.Ready then
      { s with ready_queue := s.ready_queue ++ [pid] }
    else s
  | none => s

/-- `Scheduler::start_process` (scheduler.rs): first schedule — promote
the next process to `Running`, reset its time slice, set `current`, and
jump into its context (no scheduler-state effect). -/
def Scheduler.start_process (s : Scheduler) (next_pid : Nat) : Scheduler :=
  { s with
      processes :=
        updateProc next_pid (fun p => { p with state := ProcessState.Running, time_slice := 5 })
          s.processes,
      current := some next_pid }

/-- `Scheduler::switch_to` (scheduler.rs): if the current entry is still
`Running`, demote it to `Ready` and re-enqueue it; promote the next entry
to `Running` with a fresh time slice, update `current`, and perform the
context switch (no scheduler-state effect). -/
def Scheduler.switch_to (s : Scheduler) (current_pid : Nat) (curp : ProcessControlBlock)
    (next_pid : Nat) : Scheduler :=
  let s1 :=
    if curp.state = ProcessState.Running then
      Scheduler.enqueue
        { s with
            processes :=
              updateProc current_pid (fun p => { p with state := ProcessState.Ready })
                s.processes }
        current_pid
    else s
  { s1 with
      processes :=
        updateProc next_pid (fun p => { p with state := ProcessState.Running, time_slice := 5 })
          s1.processes,
      current := some next_pid }

/-- `Scheduler::schedule` (scheduler.rs).  `pick_next` pops the
ready-queue head; an empty queue or an unknown next pid returns early.
If the next pid is the current one, just refresh its state and time
slice.  Otherwise switch via `switch_to` (the
`self.get_process(current_pid).unwrap()` panic is `none`) or, with no
current process, via `start_process`. -/
def Scheduler.schedule (s : Scheduler) : Option Scheduler :=
  match s.ready_queue with
  | [] => some s
  | next_pid :: rest =>
    match lookupProc s.processes next_pid with
    | none => some { s with ready_queue := rest }
    | some _ =>
      if some next_pid = s.current then
        some { s with
                 ready_queue := rest,
                 processes :=
                   updateProc next_pid
                     (fun p => { p with state := ProcessState.Running, time_slice := 5 })
                       s.processes }
      else
        match s.current with
        | some current_pid =>
          match lookupProc s.processes current_pid with
          | none => none
          | some curp =>
            some (Scheduler.switch_to { s with ready_queue := rest } current_pid curp next_pid)
        | none => some (Scheduler.start_process { s with ready_queue := rest } next_pid)

/-- `Scheduler::tick` (scheduler.rs): if a current process exists and is
in the table, run `ProcessControlBlock::tick` on it (writing the updated
PCB back through the handle) and call `schedule` when the time slice is
exhausted. -/
def Scheduler.tick (s : Scheduler) : Option Scheduler :=
  match s.current with
  | none => some s
  | some current_pid =>
    match lookupProc s.processes current_pid with
    | none => some s
    | some pcb =>
      let s1 := { s with processes := updateProc current_pid (fun _ => (pcb.tick).1) s.processes }
      if (pcb.tick).2 then Scheduler.schedule s1 else some s1

/-- `Scheduler::block_current` (scheduler.rs): set the current entry's
state to `Blocked` and call `schedule`. -/
def Scheduler.block_current (s : Scheduler) : Option Scheduler :=
  match s.current with
  | none => some s
  | some current_pid =>
    match lookupProc s.processes current_pid with
    | none => some s
    | some _ =>
      Scheduler.schedule
        { s with
            processes :=
              updateProc current_pid (fun p => { p with state := ProcessState.Blocked })
                s.processes }

/-- `Scheduler::wake_up` (scheduler.rs): if the entry's state is
`Blocked`, set it to `Ready` and `enqueue` it; otherwise do nothing. -/
def Scheduler.wake_up (s : Scheduler) (pid : Nat) : Scheduler :=
  match lookupProc s.processes pid with
  | none => s
  | some p =>
    if p.state = ProcessState.Blocked then
      Scheduler.enqueue
        { s with
            processes :=
              updateProc pid (fun q => { q with state := ProcessState.Ready })
                s.processes }
        pid
    else s

/-- Calling `ProcessControlBlock::set_exit_code` through the table handle
obtained from `Scheduler::get_process`, as `exit_current_process`
(process/mod.rs) and the tests do; an unknown pid finds no handle and
does nothing. -/
def Scheduler.set_exit_code_in (s : Scheduler) (pid : Nat) (code : Int) : Scheduler :=
  match lookupProc s.processes pid with
  | none => s
  | some _ =>
    { s with processes := updateProc pid (fun p => p.set_exit_code code) s.processes }

/-- Whole-kernel state for operation traces: the scheduler plus the
global `NEXT_PID` counter. -/
structure Kernel where
  sched : Scheduler
  next_pid : Nat
deriving DecidableEq

/-- Boot state: `Scheduler::new` and the `NEXT_PID` counter at 1. -/
def Kernel.init : Kernel :=
  { sched := Scheduler.new, next_pid := NEXT_PID_INIT }

/-- The scheduler and PCB operations that the specification's invariant
scenarios exercise.  `addProcess` creates a fresh PCB with
`create_process_handle` (which calls `ProcessControlBlock::new`, drawing
a pid from `ProcessId::new`) and hands it to `Scheduler::add_process`. -/
inductive Op where
  | addProcess : Op
  | removeProcess : Nat → Op
  | schedule : Op
  | tick : Op
  | blockCurrent : Op
  | wakeUp : Nat → Op
  | setExitCode : Nat → Int → Op
deriving DecidableEq

/-- One operation applied to the kernel state; `none` is a panic. -/
def Kernel.step (k : Kernel) : Op → Option Kernel
  | Op.addProcess =>
    some { sched := k.sched.add_process (ProcessControlBlock.new (ProcessId.new k.next_pid).1),
           next_pid := (ProcessId.new k.next_pid).2 }
  | Op.removeProcess pid => some { k with sched := k.sched.remove_process pid }
  | Op.schedule => (k.sched.schedule).map (fun s => { k with sched := s })
  | Op.tick => (k.sched.tick).map (fun s => { k with sched := s })
  | Op.blockCurrent => (k.sched.block_current).map (fun s => { k with sched := s })
  | Op.wakeUp pid => some { k with sched := k.sched.wake_up pid }
  | Op.setExitCode pid code => some { k with sched := k.sched.set_exit_code_in pid code }

/-- Run a list of operations from a given kernel state. -/
def Kernel.runFrom (k : Kernel) : List Op → Option Kernel
  | [] => some k
  | op :: ops =>
    match k.step op with
    | none => none
    | some k' => k'.runFrom ops

/-- Run a list of operations from the boot state. -/
def Kernel.run (ops : List Op) : Option Kernel :=
  Kernel.init.runFrom ops

/-- Every `Running` table entry is the one the `current` pointer names.
This is the part of the spec's running-process invariant that the code
maintains. -/
def RunningImpliesCurrent (s : Scheduler) : Prop :=
  ∀ p e, lookupProc s.processes p = some e → e.state = ProcessState.Running →
    s.current = some p

/-- The spec's claimed running-process invariant: the current pointer
names the unique `Running` entry, or no entry is `Running` and the
current pointer is empty. -/
def ClaimedRunningInvariant (s : Scheduler) : Prop :=
  (∃ c, s.current = some c ∧
      (∃ e, lookupProc s.processes c = some e ∧ e.state = ProcessState.Running) ∧
      (∀ p e, lookupProc s.processes p = some e → e.state = ProcessState.Running → p = c))
  ∨ ((∀ p e, lookupProc s.processes p = some e → e.state ≠ ProcessState.Running)
      ∧ s.current = none)

/-! ### Association-list lemmas -/

theorem lookupProc_insertProc (pid q : Nat) (p : ProcessControlBlock)
    (l : List (Nat × ProcessControlBlock)) :
    lookupProc (insertProc pid p l) q = if q = pid then some p else lookupProc l q := by
  induction l with
  | nil => simp [insertProc, lookupProc]
  | cons kv rest ih =>
    simp only [insertProc]
    by_cases h1 : pid < kv.1
    · simp only [if_pos h1, lookupProc]
    · by_cases h2 : pid = kv.1
      · simp only [if_neg h1, if_pos h2, lookupProc]
        by_cases hq : q = pid
        · simp [hq]
        · have hk : ¬ q = kv.1 := h2 ▸ hq
          simp [hq, hk]
      · have hk : ¬ q = pid → (q = kv.1 ↔ q = kv.1) := fun _ => Iff.rfl
        simp only [if_neg h1, if_neg h2, lookupProc, ih]
        by_cases hq : q = kv.1
        · have hqp : ¬ q = pid := fun h => h2 (by rw [← h, hq])
          have hkp : ¬ kv.1 = pid := fun h => hqp (by rw [hq, h])
          simp [hq, hqp, hkp]
        · simp [hq]

theorem lookupProc_updateProc (pid q : Nat) (f : ProcessControlBlock → ProcessControlBlock)
    (l : List (Nat × ProcessControlBlock)) :
    lookupProc (updateProc pid f l) q =
      if q = pid then (lookupProc l q).map f else lookupProc l q := by
  induction l with
  | nil => simp [updateProc, lookupProc]
  | cons kv rest ih =>
    have ih' : lookupProc (List.map (fun kv => if kv.1 = pid then (kv.1, f kv.2) else kv) rest) q
        = if q = pid then (lookupProc rest q).map f else lookupProc rest q := by
      simpa [updateProc] using ih
    simp only [updateProc, List.map_cons]
    by_cases hk : kv.1 = pid
    · simp only [if_pos hk, lookupProc]
      by_cases hq : q = kv.1
      · simp [hq, hk]
      · have : ¬ q = pid → True := fun _ => trivial
        simp only [if_neg hq, ih']
    · simp only [if_neg hk, lookupProc]
      by_cases hq : q = kv.1
      · have hqp : ¬ q = pid := fun h => hk (by rw [← hq, ← h])
        simp [hq, hqp, hk]
      · simp only [if_neg hq, ih']

theorem lookupProc_eraseProc (pid q : Nat) (l : List (Nat × ProcessControlBlock)) :
    lookupProc (eraseProc pid l) q = if q = pid then none else lookupProc l q := by
  induction l with
  | nil => simp [eraseProc, lookupProc]
  | cons kv rest ih =>
    by_cases hk : kv.1 = pid <;> by_cases hq : q = kv.1 <;>
      simp_all [eraseProc, lookupProc, List.filter_cons]

/-! ### Small structural lemmas about the scheduler operations -/

theorem enqueue_processes (s : Scheduler) (pid : Nat) :
    (s.enqueue pid).processes = s.processes := by
  unfold Scheduler.enqueue
  split
  · split <;> rfl
  · rfl

theorem enqueue_current (s : Scheduler) (pid : Nat) :
    (s.enqueue pid).current = s.current := by
  unfold Scheduler.enqueue
  split
  · split <;> rfl
  · rfl

theorem mem_enqueue_ready_queue {s : Scheduler} {pid p : Nat}
    (h : p ∈ (s.enqueue pid).ready_queue) : p ∈ s.ready_queue ∨ p = pid := by
  unfold Scheduler.enqueue at h
  split at h
  · split at h
    · rcases List.mem_append.mp h with h1 | h1
      · exact Or.inl h1
      · exact Or.inr (List.mem_singleton.mp h1)
    · exact Or.inl h
  · exact Or.inl h

theorem enqueue_of_ready {s : Scheduler} {pid : Nat} {e : ProcessControlBlock}
    (hl : lookupProc s.processes pid = some e) (he : e.state = ProcessState.Ready) :
    s.enqueue pid = { s with ready_queue := s.ready_queue ++ [pid] } := by
  unfold Scheduler.enqueue
  rw [hl]
  simp [he]

theorem add_process_processes (s : Scheduler) (p : ProcessControlBlock) :
    (s.add_process p).processes = insertProc p.pid p s.processes := by
  unfold Scheduler.add_process
  split <;> rfl

theorem add_process_current (s : Scheduler) (p : ProcessControlBlock) :
    (s.add_process p).current = s.current := by
  unfold Scheduler.add_process
  split <;> rfl

theorem add_process_ready_queue (s : Scheduler) (p : ProcessControlBlock) :
    (s.add_process p).ready_queue =
      if p.state = ProcessState.Ready then s.ready_queue ++ [p.pid] else s.ready_queue := by
  unfold Scheduler.add_process
  split <;> simp_all

theorem tick_fst_state (p : ProcessControlBlock) : ((p.tick).1).state = p.state := by
  unfold ProcessControlBlock.tick
  dsimp only
  split <;> rfl

theorem tick_fst_pid (p : ProcessControlBlock) : ((p.tick).1).pid = p.pid := by
  unfold ProcessControlBlock.tick
  dsimp only
  split <;> rfl

theorem set_exit_code_state (p : ProcessControlBlock) (code : Int) :
    (p.set_exit_code code).state = ProcessState.Zombie := rfl

/-! ### `schedule` preserves the running-process property -/

theorem RIC_start_process {s : Scheduler} (next_pid : Nat)
    (h : RunningImpliesCurrent s) (h0 : s.current = none) :
    RunningImpliesCurrent (s.start_process next_pid) := by
  intro p e hl hr
  unfold Scheduler.start_process at hl ⊢
  dsimp only at hl ⊢
  rw [lookupProc_updateProc] at hl
  by_cases hp : p = next_pid
  · rw [hp]
  · rw [if_neg hp] at hl
    have := h p e hl hr
    rw [h0] at this
    cases this

theorem RIC_switch_to {s : Scheduler} {current_pid next_pid : Nat}
    {curp : ProcessControlBlock}
    (h : RunningImpliesCurrent s)
    (hc : s.current = some current_pid)
    (hcl : lookupProc s.processes current_pid = some curp) :
    RunningImpliesCurrent (s.switch_to current_pid curp next_pid) := by
  intro p e hl hr
  unfold Scheduler.switch_to at hl ⊢
  dsimp only at hl ⊢
  by_cases hp : p = next_pid
  · rw [hp]
  · exfalso
    rw [lookupProc_updateProc, if_neg hp] at hl
    by_cases hrun : curp.state = ProcessState.Running
    · rw [if_pos hrun, enqueue_processes] at hl
      dsimp only at hl
      rw [lookupProc_updateProc] at hl
      by_cases hpc : p = current_pid
      · rw [if_pos hpc] at hl
        rcases Option.map_eq_some'.mp hl with ⟨e0, _, he⟩
        rw [← he] at hr
        cases hr
      · rw [if_neg hpc] at hl
        have := h p e hl hr
        rw [hc] at this
        exact hpc (Option.some.injEq _ _ ▸ this.symm ▸ rfl)
    · rw [if_neg hrun] at hl
      have hcur := h p e hl hr
      rw [hc] at hcur
      have hpc : current_pid = p := by
        cases hcur
        rfl
      rw [← hpc] at hl
      rw [hcl] at hl
      cases hl
      exact hrun hr

theorem schedule_RIC {s s' : Scheduler}
    (hs : s.schedule = some s') (h : RunningImpliesCurrent s) :
    RunningImpliesCurrent s' := by
  unfold Scheduler.schedule at hs
  split at hs
  · cases hs
    exact h
  case _ next_pid rest hq =>
    split at hs
    · cases hs
      intro p e hl hr
      exact h p e hl hr
    case _ np hn =>
      split at hs
      case isTrue hcur =>
        cases hs
        intro p e hl hr
        dsimp only at hl ⊢
        rw [lookupProc_updateProc] at hl
        by_cases hp : p = next_pid
        · rw [hp, ← hcur]
        · rw [if_neg hp] at hl
          exact h p e hl hr
      case isFalse hcur =>
        split at hs
        case _ current_pid hc =>
          split at hs
          · cases hs
          case _ curp hcl =>
            cases hs
            refine RIC_switch_to (s := { s with ready_queue := rest }) ?_ hc hcl
            intro p e hl hr
            exact h p e hl hr
        case _ hc =>
          cases hs
          refine RIC_start_process (s := { s with ready_queue := rest }) next_pid ?_ hc
          intro p e hl hr
          exact h p e hl hr

theorem tick_RIC {s s' : Scheduler}
    (hs : s.tick = some s') (h : RunningImpliesCurrent s) :
    RunningImpliesCurrent s' := by
  unfold Scheduler.tick at hs
  split at hs
  · cases hs
    exact h
  case _ current_pid hc =>
    split at hs
    · cases hs
      exact h
    case _ pcb hcl =>
      have hmid : RunningImpliesCurrent
          { s with processes := updateProc current_pid (fun _ => (pcb.tick).1) s.processes } := by
        intro p e hl hr
        dsimp only at hl ⊢
        rw [lookupProc_updateProc] at hl
        by_cases hp : p = current_pid
        · rw [hp, hc]
        · rw [if_neg hp] at hl
          exact h p e hl hr
      split at hs
      · exact schedule_RIC hs hmid
      · cases hs
        exact hmid

theorem block_current_RIC {s s' : Scheduler}
    (hs : s.block_current = some s') (h : RunningImpliesCurrent s) :
    RunningImpliesCurrent s' := by
  unfold Scheduler.block_current at hs
  split at hs
  · cases hs
    exact h
  case _ current_pid hc =>
    split at hs
    · cases hs
      exact h
    case _ curp hcl =>
      refine schedule_RIC hs ?_
      intro p e hl hr
      dsimp only at hl ⊢
      rw [lookupProc_updateProc] at hl
      by_cases hp : p = current_pid
      · rw [if_pos hp] at hl
        rcases Option.map_eq_some'.mp hl with ⟨e0, _, he⟩
        rw [← he] at hr
        cases hr
      · rw [if_neg hp] at hl
        exact h p e hl hr

theorem wake_up_RIC (s : Scheduler) (pid : Nat) (h : RunningImpliesCurrent s) :
    RunningImpliesCurrent (s.wake_up pid) := by
  unfold Scheduler.wake_up
  split
  · exact h
  case _ q hql =>
    split
    case isTrue hb =>
      intro p e hl hr
      rw [enqueue_processes] at hl
      rw [enqueue_current]
      dsimp only at hl ⊢
      rw [lookupProc_updateProc] at hl
      by_cases hp : p = pid
      · rw [if_pos hp] at hl
        rcases Option.map_eq_some'.mp hl with ⟨e0, _, he⟩
        rw [← he] at hr
        cases hr
      · rw [if_neg hp] at hl
        exact h p e hl hr
    case isFalse => exact h

theorem add_process_RIC (s : Scheduler) (p : ProcessControlBlock)
    (hp : p.state = ProcessState.Ready) (h : RunningImpliesCurrent s) :
    RunningImpliesCurrent (s.add_process p) := by
  intro q e hl hr
  rw [add_process_processes, lookupProc_insertProc] at hl
  rw [add_process_current]
  by_cases hq : q = p.pid
  · rw [if_pos hq] at hl
    cases hl
    rw [hp] at hr
    cases hr
  · rw [if_neg hq] at hl
    exact h q e hl hr

theorem remove_process_RIC (s : Scheduler) (pid : Nat) (h : RunningImpliesCurrent s) :
    RunningImpliesCurrent (s.remove_process pid) := by
  intro p e hl hr
  unfold Scheduler.remove_process at hl ⊢
  dsimp only at hl ⊢
  rw [lookupProc_eraseProc] at hl
  by_cases hp : p = pid
  · rw [if_pos hp] at hl
    cases hl
  · rw [if_neg hp] at hl
    have hcur := h p e hl hr
    by_cases hcp : s.current = some pid
    · rw [hcp] at hcur
      cases hcur
      exact absurd rfl hp
    · rw [if_neg hcp]
      exact hcur

theorem set_exit_code_in_RIC (s : Scheduler) (pid : Nat) (code : Int)
    (h : RunningImpliesCurrent s) :
    RunningImpliesCurrent (s.set_exit_code_in pid code) := by
  unfold Scheduler.set_exit_code_in
  split
  · exact h
  · intro p e hl hr
    dsimp only at hl ⊢
    rw [lookupProc_updateProc] at hl
    by_cases hp : p = pid
    · rw [if_pos hp] at hl
      rcases Option.map_eq_some'.mp hl with ⟨e0, _, he⟩
      rw [← he] at hr
      cases hr
    · rw [if_neg hp] at hl
      exact h p e hl hr

theorem step_RIC {k k' : Kernel} {op : Op}
    (hs : k.step op = some k') (h : RunningImpliesCurrent k.sched) :
    RunningImpliesCurrent k'.sched := by
  cases op with
  | addProcess =>
    cases hs
    exact add_process_RIC _ _ rfl h
  | removeProcess pid =>
    cases hs
    exact remove_process_RIC _ _ h
  | schedule =>
    unfold Kernel.step at hs
    rcases Option.map_eq_some'.mp hs with ⟨st, hst, hk⟩
    rw [← hk]
    exact schedule_RIC hst h
  | tick =>
    unfold Kernel.step at hs
    rcases Option.map_eq_some'.mp hs with ⟨st, hst, hk⟩
    rw [← hk]
    exact tick_RIC hst h
  | blockCurrent =>
    unfold Kernel.step at hs
    rcases Option.map_eq_some'.mp hs with ⟨st, hst, hk⟩
    rw [← hk]
    exact block_current_RIC hst h
  | wakeUp pid =>
    cases hs
    exact wake_up_RIC _ _ h
  | setExitCode pid code =>
    cases hs
    exact set_exit_code_in_RIC _ _ _ h

theorem runFrom_RIC : ∀ (ops : List Op) (k k' : Kernel),
    RunningImpliesCurrent k.sched → Kernel.runFrom k ops = some k' →
    RunningImpliesCurrent k'.sched := by
  intro ops
  induction ops with
  | nil =>
    intro k k' h hr
    unfold Kernel.runFrom at hr
    cases hr
    exact h
  | cons op ops ih =>
    intro k k' h hr
    unfold Kernel.runFrom at hr
    split at hr
    · cases hr
    case _ k1 hstep =>
      exact ih k1 k' (step_RIC hstep h) hr

/-! ### Only `Ready` entries are ever inserted into the ready queue -/

theorem schedule_enqueue_ready {s s' : Scheduler} (hs : s.schedule = some s') {p : Nat}
    (hp' : p ∈ s'.ready_queue) (hp : p ∉ s.ready_queue) :
    ∃ e, lookupProc s'.processes p = some e ∧ e.state = ProcessState.Ready := by
  unfold Scheduler.schedule at hs
  split at hs
  case _ hq =>
    cases hs
    exact absurd hp' hp
  case _ next_pid rest hq =>
    have hpr : p ∉ rest := fun hm => hp (by rw [hq]; exact List.mem_cons_of_mem _ hm)
    split at hs
    · cases hs
      exact absurd hp' hpr
    case _ np hn =>
      split at hs
      case isTrue hcur =>
        cases hs
        exact absurd hp' hpr
      case isFalse hcur =>
        split at hs
        case _ current_pid hc =>
          split at hs
          · cases hs
          case _ curp hcl =>
            cases hs
            unfold Scheduler.switch_to at hp' ⊢
            dsimp only at hp' ⊢
            by_cases hrun : curp.state = ProcessState.Running
            · rw [if_pos hrun] at hp' ⊢
              rw [enqueue_of_ready (e := { curp with state := ProcessState.Ready })
                    (by dsimp only; rw [lookupProc_updateProc, if_pos rfl, hcl]; rfl) rfl] at hp' ⊢
              dsimp only at hp' ⊢
              rcases List.mem_append.mp hp' with h1 | h1
              · exact absurd h1 hpr
              · have hpc : p = current_pid := List.mem_singleton.mp h1
                have hnc : ¬ current_pid = next_pid := fun hh => hcur (by rw [hc, hh])
                refine ⟨{ curp with state := ProcessState.Ready }, ?_, rfl⟩
                rw [lookupProc_updateProc, if_neg (by rw [hpc]; exact hnc),
                  lookupProc_updateProc, if_pos hpc, hpc, hcl]
                rfl
            · rw [if_neg hrun] at hp'
              exact absurd hp' hpr
        case _ hc =>
          cases hs
          unfold Scheduler.start_process at hp'
          dsimp only at hp'
          exact absurd hp' hpr

theorem tick_enqueue_ready {s s' : Scheduler} (hs : s.tick = some s') {p : Nat}
    (hp' : p ∈ s'.ready_queue) (hp : p ∉ s.ready_queue) :
    ∃ e, lookupProc s'.processes p = some e ∧ e.state = ProcessState.Ready := by
  unfold Scheduler.tick at hs
  split at hs
  · cases hs
    exact absurd hp' hp
  case _ current_pid hc =>
    split at hs
    · cases hs
      exact absurd hp' hp
    case _ pcb hcl =>
      split at hs
      · exact schedule_enqueue_ready hs hp' hp
      · cases hs
        exact absurd hp' hp

theorem block_current_enqueue_ready {s s' : Scheduler} (hs : s.block_current = some s') {p : Nat}
    (hp' : p ∈ s'.ready_queue) (hp : p ∉ s.ready_queue) :
    ∃ e, lookupProc s'.processes p = some e ∧ e.state = ProcessState.Ready := by
  unfold Scheduler.block_current at hs
  split at hs
  · cases hs
    exact absurd hp' hp
  case _ current_pid hc =>
    split at hs
    · cases hs
      exact absurd hp' hp
    case _ curp hcl =>
      exact schedule_enqueue_ready hs hp' hp

/-! ### Lemmas about the pid allocator -/

theorem allocIds_mem_le : ∀ (n c m : Nat), c + n ≤ USIZE_MOD → m ∈ allocIds n c → c ≤ m := by
  intro n
  induction n with
  | zero =>
    intro c m _ hm
    simp [allocIds] at hm
  | succ n ih =>
    intro c m hb hm
    rw [allocIds] at hm
    rcases List.mem_cons.mp hm with h1 | h1
    · rw [h1]
      exact Nat.le_refl c
    · by_cases hc1 : c + 1 < USIZE_MOD
      · have hmod : (ProcessId.new c).2 = c + 1 := by
          simp [ProcessId.new, Nat.mod_eq_of_lt hc1]
        rw [hmod] at h1
        have := ih (c + 1) m (by omega) h1
        omega
      · have hn : n = 0 := by omega
        rw [hn] at h1
        simp [allocIds] at h1

theorem allocIds_pairwise : ∀ (n c : Nat), c + n ≤ USIZE_MOD →
    List.Pairwise (· < ·) (allocIds n c) := by
  intro n
  induction n with
  | zero =>
    intro c _
    simp [allocIds]
  | succ n ih =>
    intro c hb
    rw [allocIds]
    refine List.Pairwise.cons ?_ ?_
    · intro m hm
      by_cases hc1 : c + 1 < USIZE_MOD
      · have hmod : (ProcessId.new c).2 = c + 1 := by
          simp [ProcessId.new, Nat.mod_eq_of_lt hc1]
        rw [hmod] at hm
        have h2 := allocIds_mem_le n (c + 1) m (by omega) hm
        have h3 : c < m := by omega
        exact h3
      · have hn : n = 0 := by omega
        rw [hn] at hm
        simp [allocIds] at hm
    · by_cases hc1 : c + 1 < USIZE_MOD
      · have hmod : (ProcessId.new c).2 = c + 1 := by
          simp [ProcessId.new, Nat.mod_eq_of_lt hc1]
        rw [hmod]
        exact ih (c + 1) (by omega)
      · have hn : n = 0 := by omega
        rw [hn]
        simp [allocIds]

/-! ### Claim theorems -/

/-- C6: every sequence of `allocate()` calls returns pairwise distinct,
strictly increasing ids, the first being 1.  The sequence length is
bounded by the 64-bit id space (pid.rs itself notes the theoretical
maximum of `usize::MAX`); a longer run would wrap the `usize` counter. -/
theorem pid_allocation_spec (n : Nat) (h : n < USIZE_MOD) :
    List.Pairwise (· < ·) (allocIds n NEXT_PID_INIT) ∧
    List.Pairwise (· ≠ ·) (allocIds n NEXT_PID_INIT) ∧
    (0 < n → (allocIds n NEXT_PID_INIT).head? = some 1) := by
  have hb : NEXT_PID_INIT + n ≤ USIZE_MOD := by
    unfold NEXT_PID_INIT
    omega
  have hlt := allocIds_pairwise n NEXT_PID_INIT hb
  refine ⟨hlt, List.Pairwise.imp (fun hab => Nat.ne_of_lt hab) hlt, ?_⟩
  intro hn
  match n, hn with
  | m + 1, _ => rfl

/-- Witness for C6 at four allocations. -/
theorem pid_allocation_spec_witness :
    List.Pairwise (· < ·) (allocIds 4 NEXT_PID_INIT) ∧
    (allocIds 4 NEXT_PID_INIT).head? = some 1 :=
  ⟨(pid_allocation_spec 4 (by norm_num [USIZE_MOD])).1,
   (pid_allocation_spec 4 (by norm_num [USIZE_MOD])).2.2 (by norm_num)⟩

/-- C4: from a fresh time slice, `tick()` returns false on calls 1-4 and
true on calls 5 and 6; in general it decrements the remaining quantum
only when it is positive and returns true exactly when the quantum is
zero afterwards. -/
theorem time_slice_tick_spec (p : ProcessControlBlock) :
    tickResults (p.reset_time_slice) 6 = [false, false, false, false, true, true] ∧
    (p.tick).1.time_slice = (if 0 < p.time_slice then p.time_slice - 1 else p.time_slice) ∧
    ((p.tick).2 = true ↔ (p.tick).1.time_slice = 0) := by
  refine ⟨rfl, ?_, ?_⟩
  · unfold ProcessControlBlock.tick
    dsimp only
    split <;> rfl
  · unfold ProcessControlBlock.tick
    dsimp only
    exact beq_iff_eq

/-- C9: `setExitCode(code)` records `Some(code)` and moves the entry to
`Zombie` whatever its prior state was, leaving pid and time slice
untouched. -/
theorem set_exit_code_spec (p : ProcessControlBlock) (code : Int) :
    (p.set_exit_code code).state = ProcessState.Zombie ∧
    (p.set_exit_code code).exit_code = some code ∧
    (p.set_exit_code code).pid = p.pid ∧
    (p.set_exit_code code).time_slice = p.time_slice :=
  ⟨rfl, rfl, rfl, rfl⟩

/-- C3: three `Ready` processes P1 < P2 < P3, first `schedule()` runs P1
with quantum 5; each group of 5 scheduler ticks rotates to the next
process and re-enqueues the preempted one at the tail, giving the run
order P1, P2, P3, P1 over two full quantum cycles. -/
theorem round_robin_rotation :
    Kernel.run [Op.addProcess, Op.addProcess, Op.addProcess, Op.schedule] =
      some ⟨⟨[(1, ⟨1, ProcessState.Running, 5, none⟩),
              (2, ⟨2, ProcessState.Ready, 5, none⟩),
              (3, ⟨3, ProcessState.Ready, 5, none⟩)], [2, 3], some 1⟩, 4⟩ ∧
    Kernel.run ([Op.addProcess, Op.addProcess, Op.addProcess, Op.schedule] ++
        List.replicate 5 Op.tick) =
      some ⟨⟨[(1, ⟨1, ProcessState.Ready, 0, none⟩),
              (2, ⟨2, ProcessState.Running, 5, none⟩),
              (3, ⟨3, ProcessState.Ready, 5, none⟩)], [3, 1], some 2⟩, 4⟩ ∧
    Kernel.run ([Op.addProcess, Op.addProcess, Op.addProcess, Op.schedule] ++
        List.replicate 10 Op.tick) =
      some ⟨⟨[(1, ⟨1, ProcessState.Ready, 0, none⟩),
              (2, ⟨2, ProcessState.Ready, 0, none⟩),
              (3, ⟨3, ProcessState.Running, 5, none⟩)], [1, 2], some 3⟩, 4⟩ ∧
    Kernel.run ([Op.addProcess, Op.addProcess, Op.addProcess, Op.schedule] ++
        List.replicate 15 Op.tick) =
      some ⟨⟨[(1, ⟨1, ProcessState.Running, 5, none⟩),
              (2, ⟨2, ProcessState.Ready, 0, none⟩),
              (3, ⟨3, ProcessState.Ready, 0, none⟩)], [2, 3], some 1⟩, 4⟩ :=
  ⟨rfl, rfl, rfl, rfl⟩

/-- C1 (counterexample): with `setExitCode` among the allowed operations
the claimed invariant fails — `setExitCode` on an id that is waiting in
the ready queue turns its entry `Zombie` without removing it from the
queue. -/
theorem zombie_in_ready_queue_after_exit :
    ∃ k : Kernel,
      Kernel.run [Op.addProcess, Op.setExitCode 1 0] = some k ∧
      1 ∈ k.sched.ready_queue ∧
      ∃ e, lookupProc k.sched.processes 1 = some e ∧ e.state = ProcessState.Zombie := by
  refine ⟨⟨⟨[(1, ⟨1, ProcessState.Zombie, 5, some 0⟩)], [1], none⟩, 2⟩, rfl, ?_, ⟨_, rfl, rfl⟩⟩
  exact List.mem_singleton.mpr rfl

/-- C1 (amended): every id that an operation newly inserts into the ready
queue has a table entry in state `Ready` at that moment — in particular a
`Zombie` entry is never inserted into the ready queue.  (An id already in
the queue can still turn `Zombie` in place via `setExitCode`, which is
what refutes the claim as stated.) -/
theorem ready_queue_insertions_are_ready (k k' : Kernel) (op : Op) (p : Nat)
    (hs : k.step op = some k')
    (hp' : p ∈ k'.sched.ready_queue) (hp : p ∉ k.sched.ready_queue) :
    ∃ e, lookupProc k'.sched.processes p = some e ∧ e.state = ProcessState.Ready := by
  cases op with
  | addProcess =>
    cases hs
    rw [add_process_ready_queue] at hp'
    rw [if_pos (show (ProcessControlBlock.new (ProcessId.new k.next_pid).1).state =
        ProcessState.Ready from rfl)] at hp'
    rcases List.mem_append.mp hp' with h1 | h1
    · exact absurd h1 hp
    · have hpe : p = (ProcessControlBlock.new (ProcessId.new k.next_pid).1).pid :=
        List.mem_singleton.mp h1
      refine ⟨ProcessControlBlock.new (ProcessId.new k.next_pid).1, ?_, rfl⟩
      rw [add_process_processes, lookupProc_insertProc, if_pos hpe]
  | removeProcess pid =>
    cases hs
    exact absurd (List.mem_filter.mp hp').1 hp
  | schedule =>
    unfold Kernel.step at hs
    rcases Option.map_eq_some'.mp hs with ⟨st, hst, hk⟩
    rw [← hk] at hp' ⊢
    exact schedule_enqueue_ready hst hp' hp
  | tick =>
    unfold Kernel.step at hs
    rcases Option.map_eq_some'.mp hs with ⟨st, hst, hk⟩
    rw [← hk] at hp' ⊢
    exact tick_enqueue_ready hst hp' hp
  | blockCurrent =>
    unfold Kernel.step at hs
    rcases Option.map_eq_some'.mp hs with ⟨st, hst, hk⟩
    rw [← hk] at hp' ⊢
    exact block_current_enqueue_ready hst hp' hp
  | wakeUp pid =>
    cases hs
    unfold Scheduler.wake_up at hp' ⊢
    split at hp'
    · exact absurd hp' hp
    case _ q hql =>
      split at hp'
      case isTrue hb =>
        rw [enqueue_of_ready (e := { q with state := ProcessState.Ready })
            (by dsimp only; rw [lookupProc_updateProc, if_pos rfl, hql]; rfl) rfl] at hp' ⊢
        dsimp only at hp' ⊢
        rcases List.mem_append.mp hp' with h1 | h1
        · exact absurd h1 hp
        · have hpe : p = pid := List.mem_singleton.mp h1
          refine ⟨{ q with state := ProcessState.Ready }, ?_, rfl⟩
          rw [if_pos hb]
          dsimp only
          rw [lookupProc_updateProc, if_pos hpe, hpe, hql]
          rfl
      case isFalse =>
        exact absurd hp' hp
  | setExitCode pid code =>
    cases hs
    unfold Scheduler.set_exit_code_in at hp'
    split at hp'
    · exact absurd hp' hp
    · exact absurd hp' hp

/-- Witness for C1: the first `addProcess` from the boot state inserts
pid 1, whose entry is `Ready`. -/
theorem ready_queue_insertions_are_ready_witness :
    ∃ e, lookupProc
        (({ sched := ⟨[(1, ProcessControlBlock.new 1)], [1], none⟩,
            next_pid := 2 } : Kernel)).sched.processes 1 = some e ∧
      e.state = ProcessState.Ready :=
  ready_queue_insertions_are_ready Kernel.init
    { sched := ⟨[(1, ProcessControlBlock.new 1)], [1], none⟩, next_pid := 2 }
    Op.addProcess 1 rfl (by decide) (by decide)

/-- C2 (counterexample): `blockCurrent` with an empty ready queue leaves
`current` pointing at the now-`Blocked` entry, so no entry is `Running`
yet `current` is not empty — the claimed disjunction fails. -/
theorem current_not_cleared_when_blocked_idle :
    Kernel.run [Op.addProcess, Op.schedule, Op.blockCurrent] =
      some ⟨⟨[(1, ⟨1, ProcessState.Blocked, 5, none⟩)], [], some 1⟩, 2⟩ ∧
    ¬ ClaimedRunningInvariant ⟨[(1, ⟨1, ProcessState.Blocked, 5, none⟩)], [], some 1⟩ := by
  refine ⟨rfl, ?_⟩
  rintro (⟨c, hc, ⟨e, he, hrun⟩, -⟩ | ⟨-, hcur⟩)
  · injection hc with hc
    rw [← hc] at he
    have h2 : lookupProc [(1, (⟨1, ProcessState.Blocked, 5, none⟩ : ProcessControlBlock))] 1 =
        some ⟨1, ProcessState.Blocked, 5, none⟩ := rfl
    rw [h2] at he
    injection he with he
    rw [← he] at hrun
    cases hrun
  · cases hcur

/-- C2 (amended): after every operation sequence from the empty
scheduler, any `Running` entry's id equals the scheduler's current
pointer; hence at most one entry is `Running`, and whenever `current` is
empty no entry is `Running`.  (The converse direction of the claim fails:
`current` can be non-empty with no `Running` entry.) -/
theorem running_entry_equals_current (ops : List Op) (k : Kernel)
    (h : Kernel.run ops = some k) :
    (∀ p e, lookupProc k.sched.processes p = some e → e.state = ProcessState.Running →
      k.sched.current = some p) ∧
    (∀ p q e f, lookupProc k.sched.processes p = some e →
      lookupProc k.sched.processes q = some f →
      e.state = ProcessState.Running → f.state = ProcessState.Running → p = q) := by
  have hric : RunningImpliesCurrent k.sched := by
    refine runFrom_RIC ops Kernel.init k ?_ h
    intro p e hl hr
    simp [Kernel.init, Scheduler.new, lookupProc] at hl
  refine ⟨hric, ?_⟩
  intro p q e f hp hq he hf
  have h1 := hric p e hp he
  have h2 := hric q f hq hf
  rw [h1] at h2
  injection h2

/-- Witness for C2 at the trace addProcess; schedule. -/
theorem running_entry_equals_current_witness :
    (({ sched := ⟨[(1, ⟨1, ProcessState.Running, 5, none⟩)], [], some 1⟩,
        next_pid := 2 } : Kernel)).sched.current = some 1 :=
  (running_entry_equals_current [Op.addProcess, Op.schedule]
      { sched := ⟨[(1, ⟨1, ProcessState.Running, 5, none⟩)], [], some 1⟩, next_pid := 2 }
      rfl).1 1 ⟨1, ProcessState.Running, 5, none⟩ rfl rfl

/-- C5: when `schedule()` picks a next id different from `current`, a
still-`Running` current entry is demoted to `Ready` and re-enqueued at
the tail, a `Blocked` or `Zombie` one is not re-enqueued, and in either
case the next entry becomes `Running` with a fresh quantum and `current`
moves to it. -/
theorem schedule_switch_spec (s : Scheduler) (next_pid current_pid : Nat) (rest : List Nat)
    (np curp : ProcessControlBlock)
    (hq : s.ready_queue = next_pid :: rest)
    (hn : lookupProc s.processes next_pid = some np)
    (hc : s.current = some current_pid)
    (hne : next_pid ≠ current_pid)
    (hcl : lookupProc s.processes current_pid = some curp) :
    (curp.state = ProcessState.Running →
      s.schedule = some
        ⟨updateProc next_pid (fun p => { p with state := ProcessState.Running, time_slice := 5 })
            (updateProc current_pid (fun p => { p with state := ProcessState.Ready }) s.processes),
          rest ++ [current_pid],
          some next_pid⟩) ∧
    ((curp.state = ProcessState.Blocked ∨ curp.state = ProcessState.Zombie) →
      s.schedule = some
        ⟨updateProc next_pid (fun p => { p with state := ProcessState.Running, time_slice := 5 })
            s.processes,
          rest,
          some next_pid⟩) := by
  have hcur2 : ¬ (some next_pid = some current_pid) := by
    intro hh
    injection hh with hh
    exact hne hh
  constructor
  · intro hrun
    unfold Scheduler.schedule
    rw [hq]
    simp only [hn, hc, if_neg hcur2, hcl]
    unfold Scheduler.switch_to
    rw [if_pos hrun]
    dsimp only
    rw [enqueue_of_ready (e := { curp with state := ProcessState.Ready })
        (by dsimp only; rw [lookupProc_updateProc, if_pos rfl, hcl]; rfl) rfl]
  · intro hblock
    have hrun : ¬ curp.state = ProcessState.Running := by
      rcases hblock with hb | hb <;> rw [hb] <;> intro hh <;> cases hh
    unfold Scheduler.schedule
    rw [hq]
    simp only [hn, hc, if_neg hcur2, hcl]
    unfold Scheduler.switch_to
    rw [if_neg hrun]

/-- Witness for C5 on a two-process scheduler whose current entry is
still running. -/
theorem schedule_switch_spec_witness :
    Scheduler.schedule ⟨[(1, ⟨1, ProcessState.Running, 0, none⟩),
        (2, ⟨2, ProcessState.Ready, 5, none⟩)], [2], some 1⟩ =
      some ⟨updateProc 2 (fun p => { p with state := ProcessState.Running, time_slice := 5 })
          (updateProc 1 (fun p => { p with state := ProcessState.Ready })
            [(1, ⟨1, ProcessState.Running, 0, none⟩), (2, ⟨2, ProcessState.Ready, 5, none⟩)]),
        [] ++ [1],
        some 2⟩ :=
  (schedule_switch_spec ⟨[(1, ⟨1, ProcessState.Running, 0, none⟩),
        (2, ⟨2, ProcessState.Ready, 5, none⟩)], [2], some 1⟩
      2 1 [] ⟨2, ProcessState.Ready, 5, none⟩ ⟨1, ProcessState.Running, 0, none⟩
      rfl rfl rfl (by decide) rfl).1 rfl

/-- C8: `wakeUp(id)` on a `Blocked` entry sets it `Ready` and appends its
id to the ready-queue tail; on an entry in any other state, or on an
unknown id, it leaves the whole scheduler state unchanged. -/
theorem wake_up_spec (s : Scheduler) (pid : Nat) :
    (∀ e, lookupProc s.processes pid = some e → e.state = ProcessState.Blocked →
      s.wake_up pid =
        ⟨updateProc pid (fun q => { q with state := ProcessState.Ready }) s.processes,
          s.ready_queue ++ [pid],
          s.current⟩) ∧
    (∀ e, lookupProc s.processes pid = some e → e.state ≠ ProcessState.Blocked →
      s.wake_up pid = s) ∧
    (lookupProc s.processes pid = none → s.wake_up pid = s) := by
  refine ⟨?_, ?_, ?_⟩
  · intro e hl hb
    unfold Scheduler.wake_up
    simp only [hl, if_pos hb]
    rw [enqueue_of_ready (e := { e with state := ProcessState.Ready })
        (by dsimp only; rw [lookupProc_updateProc, if_pos rfl, hl]; rfl) rfl]
  · intro e hl hb
    unfold Scheduler.wake_up
    simp only [hl, if_neg hb]
  · intro h
    unfold Scheduler.wake_up
    simp only [h]

/-- Witness for C8 on a one-process scheduler with a `Blocked` entry. -/
theorem wake_up_spec_witness :
    Scheduler.wake_up ⟨[(7, ⟨7, ProcessState.Blocked, 0, none⟩)], [], none⟩ 7 =
      ⟨updateProc 7 (fun q => { q with state := ProcessState.Ready })
          [(7, ⟨7, ProcessState.Blocked, 0, none⟩)],
        [] ++ [7],
        none⟩ :=
  (wake_up_spec ⟨[(7, ⟨7, ProcessState.Blocked, 0, none⟩)], [], none⟩ 7).1
    ⟨7, ProcessState.Blocked, 0, none⟩ rfl rfl

/-- C10 (counterexample): the claim quantifies over every scheduler state
whose ready-queue head is in the table, but if the `current` pointer
holds an id that is absent from the table, `schedule()` hits
`get_process(current_pid).unwrap()` and panics (modelled as `none`)
instead of promoting the popped head. -/
theorem schedule_panics_on_dangling_current :
    ¬ ∃ s', Scheduler.schedule
        ⟨[(1, ⟨1, ProcessState.Zombie, 0, some 0⟩)], [1], some 2⟩ = some s' ∧
      lookupProc s'.processes 1 = some ⟨1, ProcessState.Running, 5, some 0⟩ ∧
      s'.current = some 1 := by
  rintro ⟨s', hs, -, -⟩
  have h0 : Scheduler.schedule
      ⟨[(1, ⟨1, ProcessState.Zombie, 0, some 0⟩)], [1], some 2⟩ = none := rfl
  rw [h0] at hs
  cases hs

/-- C10 (amended): provided the `current` pointer, when set, names an id
present in the table (otherwise the `unwrap` panics first), `schedule()`
promotes the popped ready-queue head to `Running` with quantum 5 and
points `current` at it without ever inspecting the head entry's previous
lifecycle state. -/
theorem schedule_promotes_head_regardless_of_state (s : Scheduler) (next_pid : Nat)
    (rest : List Nat) (np : ProcessControlBlock)
    (hq : s.ready_queue = next_pid :: rest)
    (hn : lookupProc s.processes next_pid = some np)
    (hwf : ∀ c, s.current = some c → ∃ e, lookupProc s.processes c = some e) :
    ∃ s', s.schedule = some s' ∧
      lookupProc s'.processes next_pid =
        some { np with state := ProcessState.Running, time_slice := 5 } ∧
      s'.current = some next_pid := by
  unfold Scheduler.schedule
  rw [hq]
  simp only [hn]
  by_cases hcur : some next_pid = s.current
  · rw [if_pos hcur]
    refine ⟨_, rfl, ?_, ?_⟩
    · dsimp only
      rw [lookupProc_updateProc, if_pos rfl, hn]
      rfl
    · dsimp only
      exact hcur.symm
  · rw [if_neg hcur]
    cases hc : s.current with
    | none =>
      refine ⟨_, rfl, ?_, rfl⟩
      unfold Scheduler.start_process
      dsimp only
      rw [lookupProc_updateProc, if_pos rfl, hn]
      rfl
    | some current_pid =>
      rcases hwf current_pid hc with ⟨curp, hcl⟩
      simp only [hcl]
      refine ⟨_, rfl, ?_, rfl⟩
      unfold Scheduler.switch_to
      by_cases hrun : curp.state = ProcessState.Running
      · rw [if_pos hrun]
        dsimp only
        rw [enqueue_of_ready (e := { curp with state := ProcessState.Ready })
            (by dsimp only; rw [lookupProc_updateProc, if_pos rfl, hcl]; rfl) rfl]
        dsimp only
        have hne : ¬ next_pid = current_pid := by
          intro hh
          exact hcur (by rw [hc, hh])
        rw [lookupProc_updateProc, if_pos rfl, lookupProc_updateProc, if_neg hne, hn]
        rfl
      · rw [if_neg hrun]
        dsimp only
        rw [lookupProc_updateProc, if_pos rfl, hn]
        rfl

/-- Witness for C10: a `Zombie` entry at the ready-queue head is promoted
to `Running` by `schedule()`. -/
theorem schedule_promotes_head_regardless_of_state_witness :
    ∃ s', Scheduler.schedule ⟨[(1, ⟨1, ProcessState.Zombie, 0, some 7⟩)], [1], none⟩ = some s' ∧
      lookupProc s'.processes 1 = some ⟨1, ProcessState.Running, 5, some 7⟩ ∧
      s'.current = some 1 :=
  schedule_promotes_head_regardless_of_state
    ⟨[(1, ⟨1, ProcessState.Zombie, 0, some 7⟩)], [1], none⟩ 1 []
    ⟨1, ProcessState.Zombie, 0, some 7⟩ rfl rfl (fun _ h => nomatch h)

/-- C7: the user-context constructor puts the entry point in sepc, the
stack top in sp, the translation root in satp; in the stored sstatus the
SPP (privilege) bit is cleared, the SPIE (interrupt-enable-on-resume) bit
is set, every other bit equals the value read from the live sstatus CSR;
and all other registers are zero. -/
theorem new_user_context_spec (E S R hw : Nat) (hhw : hw < USIZE_MOD) :
    (ProcessContext.new_user_context E S R hw).sepc = E ∧
    (ProcessContext.new_user_context E S R hw).sp = S ∧
    (ProcessContext.new_user_context E S R hw).satp = R ∧
    (ProcessContext.new_user_context E S R hw).sstatus.testBit SPP_BIT = false ∧
    (ProcessContext.new_user_context E S R hw).sstatus.testBit SPIE_BIT = true ∧
    (∀ i, i ≠ SPP_BIT → i ≠ SPIE_BIT →
      (ProcessContext.new_user_context E S R hw).sstatus.testBit i = hw.testBit i) ∧
    ((ProcessContext.new_user_context E S R hw).ra = 0 ∧
     (ProcessContext.new_user_context E S R hw).gp = 0 ∧
     (ProcessContext.new_user_context E S R hw).tp = 0 ∧
     (ProcessContext.new_user_context E S R hw).t0 = 0 ∧
     (ProcessContext.new_user_context E S R hw).t1 = 0 ∧
     (ProcessContext.new_user_context E S R hw).t2 = 0 ∧
     (ProcessContext.new_user_context E S R hw).t3 = 0 ∧
     (ProcessContext.new_user_context E S R hw).t4 = 0 ∧
     (ProcessContext.new_user_context E S R hw).t5 = 0 ∧
     (ProcessContext.new_user_context E S R hw).t6 = 0 ∧
     (ProcessContext.new_user_context E S R hw).s0 = 0 ∧
     (ProcessContext.new_user_context E S R hw).s1 = 0 ∧
     (ProcessContext.new_user_context E S R hw).s2 = 0 ∧
     (ProcessContext.new_user_context E S R hw).s3 = 0 ∧
     (ProcessContext.new_user_context E S R hw).s4 = 0 ∧
     (ProcessContext.new_user_context E S R hw).s5 = 0 ∧
     (ProcessContext.new_user_context E S R hw).s6 = 0 ∧
     (ProcessContext.new_user_context E S R hw).s7 = 0 ∧
     (ProcessContext.new_user_context E S R hw).s8 = 0 ∧
     (ProcessContext.new_user_context E S R hw).s9 = 0 ∧
     (ProcessContext.new_user_context E S R hw).s10 = 0 ∧
     (ProcessContext.new_user_context E S R hw).s11 = 0 ∧
     (ProcessContext.new_user_context E S R hw).a0 = 0 ∧
     (ProcessContext.new_user_context E S R hw).a1 = 0 ∧
     (ProcessContext.new_user_context E S R hw).a2 = 0 ∧
     (ProcessContext.new_user_context E S R hw).a3 = 0 ∧
     (ProcessContext.new_user_context E S R hw).a4 = 0 ∧
     (ProcessContext.new_user_context E S R hw).a5 = 0 ∧
     (ProcessContext.new_user_context E S R hw).a6 = 0 ∧
     (ProcessContext.new_user_context E S R hw).a7 = 0) := by
  have hss : ∀ i, (enable_interrupt_on_return (set_user_mode hw)).testBit i =
      ((hw.testBit i && ((decide (i < 64)).xor (decide (8 = i)))) || decide (5 = i)) := by
    intro i
    unfold enable_interrupt_on_return set_user_mode SPP_BIT SPIE_BIT USIZE_MOD
    rw [Nat.testBit_lor, Nat.testBit_land, Nat.testBit_xor, Nat.testBit_two_pow_sub_one,
      Nat.shiftLeft_eq, Nat.shiftLeft_eq, one_mul, one_mul, Nat.testBit_two_pow,
      Nat.testBit_two_pow]
  have hctx : (ProcessContext.new_user_context E S R hw).sstatus =
      enable_interrupt_on_return (set_user_mode hw) := rfl
  refine ⟨rfl, rfl, rfl, ?_, ?_, ?_,
    rfl, rfl, rfl, rfl, rfl, rfl, rfl, rfl, rfl, rfl, rfl, rfl, rfl, rfl, rfl,
    rfl, rfl, rfl, rfl, rfl, rfl, rfl, rfl, rfl, rfl, rfl, rfl, rfl, rfl, rfl⟩
  · rw [hctx]
    simp only [SPP_BIT]
    rw [hss 8]
    simp
  · rw [hctx]
    simp only [SPIE_BIT]
    rw [hss 5]
    simp
  · intro i h8 h5
    simp only [SPP_BIT] at h8
    simp only [SPIE_BIT] at h5
    rw [hctx, hss i]
    have h8i : ¬ (8 = i) := fun hh => h8 hh.symm
    have h5i : ¬ (5 = i) := fun hh => h5 hh.symm
    by_cases hi : i < 64
    · simp [hi, h8i, h5i]
    · have hpow : hw < 2 ^ i :=
        Nat.lt_of_lt_of_le hhw (Nat.pow_le_pow_right (by norm_num) (by omega))
      rw [Nat.testBit_lt_two_pow hpow]
      simp [hi, h8i, h5i]

/-- Witness for C7 at entry 1, stack 2, root 3, hardware sstatus 0. -/
theorem new_user_context_spec_witness :
    (ProcessContext.new_user_context 1 2 3 0).sepc = 1 ∧
    (ProcessContext.new_user_context 1 2 3 0).sstatus.testBit SPP_BIT = false ∧
    (ProcessContext.new_user_context 1 2 3 0).sstatus.testBit SPIE_BIT = true :=
  ⟨(new_user_context_spec 1 2 3 0 (by norm_num [USIZE_MOD])).1,
   (new_user_context_spec 1 2 3 0 (by norm_num [USIZE_MOD])).2.2.2.1,
   (new_user_context_spec 1 2 3 0 (by norm_num [USIZE_MOD])).2.2.2.2.1⟩
